import Mathlib

/-!
Verification of the walk-forward backtesting engine (`Classes/Backtester.py`)
and the strategy family (`Classes/Strategy.py`, `Classes/StrategyBank.py`)
of the POO-crypto repository, as a shallow embedding in Lean 4.

Conventions of the embedding:
* Trading dates are integers (days); `pd.DateOffset(days = n)` is integer
  addition, and pandas label slicing `df[a:b]` is inclusive on both ends.
* A pandas float value is `Option ℚ`: `some q` is a finite float, `none` is a
  non-finite value (`NaN`, or `±inf` produced by dividing by zero).  All
  finite float arithmetic is modelled exactly over `ℚ`.
* A `pd.Series` is an association list from asset name to value; a
  `pd.DataFrame` is a `Frame`: a column list plus dated rows.
* Python exceptions are modelled with `Except PyErr`; the exception kind
  records which Python error class is raised.
* `scipy.optimize.minimize` is an abstract `Solver` parameter: the code under
  `src/` decides nothing about its numerics, only how its result is used.
-/

/-- Kinds of Python exceptions the modelled code can raise. -/
inductive PyErr where
  | typeError
  | valueError
  | attributeError
  | indexError
  | zeroDivisionError
deriving Repr, DecidableEq

/-- Asset identifiers (pandas column labels). -/
abbrev Asset := String

/-- A pandas float cell: `some q` finite, `none` non-finite (NaN or ±inf). -/
abbrev PVal := Option ℚ

/-- A pandas Series over assets, values possibly NaN. -/
abbrev Series := List (Asset × PVal)

/-- A pandas DataFrame: dated rows over a fixed column list.  Each row's value
list is aligned positionally with `cols`. -/
structure Frame where
  cols : List Asset
  rows : List (ℤ × List PVal)
deriving Repr, DecidableEq

/-- Number of rows, `len(df)`. -/
def Frame.nrows (f : Frame) : ℕ := f.rows.length

/-- Pandas `df.empty`: true when either axis has length zero. -/
def Frame.isEmptyF (f : Frame) : Bool := f.rows.isEmpty || f.cols.isEmpty

/-- Label slice `df[a:b]`, inclusive on both endpoints as in pandas. -/
def Frame.sliceRows (f : Frame) (a b : ℤ) : Frame :=
  ⟨f.cols, f.rows.filter (fun r => decide (a ≤ r.1) && decide (r.1 ≤ b))⟩

/-- Values of column `j`, top to bottom. -/
def Frame.colVals (f : Frame) (j : ℕ) : List PVal :=
  f.rows.map (fun r => r.2.getD j none)

/-- All columns as value lists. -/
def Frame.colsVals (f : Frame) : List (List PVal) :=
  (List.range f.cols.length).map f.colVals

/-- Rebuild a frame from transformed column value lists (the transform must be
length preserving, as the modelled pandas column operations are).  The row
count is preserved even when there are zero columns, matching pandas. -/
def Frame.mapCols (f : Frame) (g : List PVal → List PVal) : Frame :=
  ⟨f.cols,
    (f.rows.enum).map (fun p => (p.2.1, (f.colsVals.map g).map (fun c => c.getD p.1 none)))⟩

/-- Forward-fill of a missing current value from the previous (already padded)
value of the column. -/
def padVal : PVal → PVal → PVal
  | some q, _ => some q
  | none, prev => prev

/-- One simple return `v / p - 1`; non-finite when the previous value is
missing or zero (division by zero is a non-finite float). -/
def pctVal : PVal → PVal → PVal
  | some p, some v => if p = 0 then none else some (v / p - 1)
  | _, _ => none

/-- Column recursion of pandas `pct_change()` with its default
`fill_method='pad'`: the column is forward-filled, then each cell holds the
simple return against the previous padded value; the first cell — and every
cell before the first observation — is NaN. -/
def pctCol : PVal → List PVal → List PVal
  | _, [] => []
  | prev, x :: rest => pctVal prev (padVal x prev) :: pctCol (padVal x prev) rest

/-- Pandas `df.pct_change()` (default `fill_method='pad'`). -/
def Frame.pct_change (f : Frame) : Frame :=
  f.mapCols (pctCol none)

/-- Pandas `df.dropna()` (default `axis=0, how='any'`): drop every row that
contains a NaN. -/
def Frame.dropnaRows (f : Frame) : Frame :=
  ⟨f.cols, f.rows.filter (fun r => r.2.all Option.isSome)⟩

/-- Pandas `df.dropna(axis=1)` (default `how='any'`): drop every column that
contains a NaN. -/
def Frame.dropnaColsAny (f : Frame) : Frame :=
  ⟨((List.range f.cols.length).filter (fun j => (f.colVals j).all Option.isSome)).map
      (fun j => f.cols.getD j ""),
    f.rows.map (fun r =>
      (r.1, ((List.range f.cols.length).filter (fun j => (f.colVals j).all Option.isSome)).map
        (fun j => r.2.getD j none)))⟩

/-- Pandas `df.dropna(axis=1, how='all')`: drop every column all of whose
values are NaN (a column of an empty frame is kept). -/
def Frame.dropnaColsAll (f : Frame) : Frame :=
  ⟨((List.range f.cols.length).filter (fun j => f.rows.isEmpty || (f.colVals j).any Option.isSome)).map
      (fun j => f.cols.getD j ""),
    f.rows.map (fun r =>
      (r.1, ((List.range f.cols.length).filter
          (fun j => f.rows.isEmpty || (f.colVals j).any Option.isSome)).map
        (fun j => r.2.getD j none)))⟩

/-- Column recursion of pandas `ffill`. -/
def ffillCol : PVal → List PVal → List PVal
  | _, [] => []
  | prev, x :: rest => padVal x prev :: ffillCol (padVal x prev) rest

/-- Pandas `df.ffill()`. -/
def Frame.ffill (f : Frame) : Frame :=
  f.mapCols (ffillCol none)

/-- Pandas `df.bfill()`: forward fill run on the reversed column. -/
def Frame.bfill (f : Frame) : Frame :=
  f.mapCols (fun c => (ffillCol none c.reverse).reverse)

/-- Pandas `df.iloc[i]` as a Series; raises `IndexError` when `i` is out of
bounds (in particular on a frame with zero rows). -/
def Frame.ilocRow (f : Frame) (i : ℕ) : Except PyErr Series :=
  match f.rows.get? i with
  | none => .error .indexError
  | some r => .ok (f.cols.zip r.2)

/-- Comparison used by pandas `rank`: `ascending=True` ranks smaller values
first, `ascending=False` larger values first. -/
def rankLtb (asc : Bool) (a b : ℚ) : Bool :=
  if asc then decide (a < b) else decide (b < a)

/-- Pandas `Series.rank(method='first')` on the list of non-NaN values: the
rank of the element at position `i` is one plus the number of elements ranked
strictly before it plus the number of equal elements appearing earlier (ties
are broken by order of appearance). -/
def rankFirst (asc : Bool) (v : List ℚ) : List ℚ :=
  v.enum.map (fun p =>
    1 + ((v.filter (fun y => rankLtb asc y p.2)).length : ℚ)
      + ((v.enum.filter (fun q => decide (q.1 < p.1) && decide (q.2 = p.2))).length : ℚ))

/-- Reattach computed ranks to a Series: non-NaN entries receive the next rank
in order of appearance, NaN entries keep a NaN rank (pandas `na_option='keep'`). -/
def assignRanks : List (Asset × PVal) → List ℚ → List (Asset × PVal)
  | [], _ => []
  | (a, none) :: rest, ranks => (a, none) :: assignRanks rest ranks
  | (a, some _) :: rest, [] => (a, none) :: assignRanks rest []
  | (a, some _) :: rest, r :: ranks => (a, some r) :: assignRanks rest ranks

/-- Pandas `Series.rank(ascending=asc, method='first')`. -/
def rankSeries (asc : Bool) (s : List (Asset × PVal)) : List (Asset × PVal) :=
  assignRanks s (rankFirst asc (s.filterMap (fun p => p.2)))

/-- Sort key of pandas `Series.sort_values()`: ascending by value with NaN
placed last. -/
def pvalLtB : PVal → PVal → Bool
  | some a, some b => decide (a < b)
  | some _, none => true
  | none, _ => false

/-- Pandas `Series.sort_values()`: a stable ascending sort with NaN last. -/
def sortValues (s : List (Asset × PVal)) : List (Asset × PVal) :=
  List.insertionSort (fun x y => pvalLtB x.2 y.2 = true) s

/-- Sum of a list of float values as Python's built-in `sum` computes it over
a Series: the empty sum is `0`, and a NaN operand makes the result NaN. -/
def pvalSum : List PVal → PVal
  | [] => some 0
  | none :: _ => none
  | some q :: rest => (pvalSum rest).map (fun t => q + t)

/-- Float division with NaN propagation; a zero divisor yields a non-finite
result (`0/0` is NaN, `x/0` is ±inf — both are `none` here). -/
def pdivP : PVal → PVal → PVal
  | some a, some b => if b = 0 then none else some (a / b)
  | _, _ => none

/-- Float subtraction with NaN propagation, the elementwise operation of the
pandas expression `ranked_assets - average`. -/
def psubP : PVal → PVal → PVal
  | some a, some b => some (a - b)
  | _, _ => none

/-- Lines 161–172 of `Classes/Strategy.py` (`RankedStrategy.get_position`
after `rank_assets`): `num_assets = ranked.count()` and
`sum_of_ranks = ranked.sum()` skip NaN; `average = sum_of_ranks / num_assets`
(a NumPy `0.0 / 0` on an empty ranking is NaN, not an exception);
`weights = ranked - average`; `total_abs_ranks = sum(abs(weights))` with
Python's built-in `sum`; the result is `weights / total_abs_ranks`. -/
def rankTransform (ranked_assets : List (Asset × PVal)) : Series :=
  let vals := ranked_assets.filterMap (fun p => p.2)
  let num_assets : ℕ := vals.length
  let average : PVal := if num_assets = 0 then none else some (vals.sum / (num_assets : ℚ))
  let weights := ranked_assets.map (fun p => (p.1, psubP p.2 average))
  let total_abs_ranks := pvalSum (weights.map (fun p => p.2.map (fun w => |w|)))
  weights.map (fun p => (p.1, pdivP p.2 total_abs_ranks))

/-- The strategy plugin contract: `get_position(historical_data, current_position)`. -/
abbrev GetPosition := Frame → Series → Except PyErr Series

/-- The generic `RankedStrategy.get_position` (`Classes/Strategy.py` lines
150–172), parameterized by the concrete `rank_assets`; an exception raised by
`rank_assets` propagates.  The `current_position` argument is never read. -/
def RankedStrategy.get_position (rank_assets : Frame → Except PyErr (List (Asset × PVal)))
    (historical_data : Frame) (current_position : Series) : Except PyErr Series :=
  (rank_assets historical_data).map rankTransform

/-- The `ValueStrategy.rank_assets` of `Classes/StrategyBank.py` lines
110–124: coefficient = last price / first price of the window (`iloc[-1]` and
`iloc[0]` raise `IndexError` on a frame with no rows), `dropna`, then
`rank(ascending=False, method='first').sort_values()`. -/
def ValueStrategy.rank_assets (historical_data : Frame) : Except PyErr (List (Asset × PVal)) :=
  match historical_data.ilocRow (historical_data.nrows - 1), historical_data.ilocRow 0 with
  | .ok last_prices, .ok prices_one_year_ago =>
    let coef_asset := (last_prices.zip prices_one_year_ago).map
      (fun p => (p.1.1, pdivP p.1.2 p.2.2))
    .ok (sortValues (rankSeries false (coef_asset.filter (fun p => p.2.isSome))))
  | .error e, _ => .error e
  | _, .error e => .error e

/-- Rolling compounded return of one column for pandas
`rolling(window=w).apply(lambda x: (1 + x).prod() - 1)`: positions with fewer
than `w` observations, or with a NaN inside the window, are NaN. -/
def rollingCol (w : ℕ) (vals : List PVal) : List PVal :=
  (List.range vals.length).map (fun i =>
    if i + 1 < w then none
    else
      let window := (vals.drop (i + 1 - w)).take w
      if window.all Option.isSome then
        some ((window.map (fun v => 1 + v.getD 0)).prod - 1)
      else none)

/-- The `MomentumStrategy.rank_assets` of `Classes/StrategyBank.py` lines
127–143: returns, `delta = ceil(len/12)` (computed exactly here; NumPy's
float `ceil(len*(1/12))` agrees on these magnitudes), a rolling compounded
return over `len - delta` observations, the row `iloc[-delta]`, `dropna`,
then `rank(ascending=True, method='first').sort_values()`.  Pandas rejects a
rolling window of zero with a `ValueError`. -/
def MomentumStrategy.rank_assets (historical_data : Frame) : Except PyErr (List (Asset × PVal)) :=
  let returns := historical_data.pct_change.dropnaRows
  let len_window := returns.nrows
  let delta := (len_window + 11) / 12
  if len_window - delta = 0 then .error .valueError
  else
    let total_returns := returns.mapCols (rollingCol (len_window - delta))
    match total_returns.rows.get? (len_window - delta) with
    | none => .error .indexError
    | some row =>
      let latest_returns := (total_returns.cols.zip row.2).filter (fun p => p.2.isSome)
      .ok (sortValues (rankSeries true latest_returns))

/-- Sample variance with `ddof=1` (the square of the pandas `std()`), NaN when
there are fewer than two observations. -/
def sampleVariance (xs : List ℚ) : PVal :=
  if xs.length < 2 then none
  else
    some (((xs.map (fun x => (x - xs.sum / (xs.length : ℚ)) ^ 2)).sum) / ((xs.length : ℚ) - 1))

/-- The `MinVolStrategy.rank_assets` of `Classes/StrategyBank.py` lines
146–159: per-column `std()` of the returns, then
`rank(ascending=False, method='first').sort_values()`.  The source's bare
`volatility.dropna()` on line 158 discards its result, so NaN entries stay.
Because `Real.sqrt` is strictly increasing on nonnegative arguments, ranking
the standard deviations is the same as ranking the sample variances, which
keeps the embedding inside `ℚ`. -/
def MinVolStrategy.rank_assets (historical_data : Frame) : Except PyErr (List (Asset × PVal)) :=
  let returns := historical_data.pct_change.dropnaRows
  let volatility := returns.cols.zip
    (returns.colsVals.map (fun c => sampleVariance (c.filterMap id)))
  .ok (sortValues (rankSeries false volatility))

/-- The `ValueStrategy` plugged into the generic rank transform. -/
def ValueStrategy.get_position : GetPosition :=
  RankedStrategy.get_position ValueStrategy.rank_assets

/-- The `MomentumStrategy` plugged into the generic rank transform. -/
def MomentumStrategy.get_position : GetPosition :=
  RankedStrategy.get_position MomentumStrategy.rank_assets

/-- The `MinVolStrategy` plugged into the generic rank transform. -/
def MinVolStrategy.get_position : GetPosition :=
  RankedStrategy.get_position MinVolStrategy.rank_assets

/-- The `EqualWeightStrategy.get_position` of `Classes/StrategyBank.py` lines
78–91: `1 / num_assets` with `num_assets = df.shape[1]`; Python integer
division by zero raises `ZeroDivisionError` when the frame has no columns. -/
def EqualWeightStrategy.get_position : GetPosition := fun historical_data _ =>
  let num_assets := historical_data.cols.length
  if num_assets = 0 then .error .zeroDivisionError
  else .ok (historical_data.cols.map (fun a => (a, some (1 / (num_assets : ℚ)))))

/-- Configuration of `OptimizationStrategy.__init__` (`Classes/Strategy.py`
lines 32–54), with the source's default values. -/
structure OptConfig where
  num_clusters : ℕ
  max_weight : ℚ
  min_weight : ℚ
  min_weight_sector : ℚ
  max_weight_sector : ℚ
  risk_free_rate : ℚ
  total_exposure : ℚ
deriving Repr, DecidableEq

/-- Default constructor arguments of `OptimizationStrategy.__init__`. -/
def OptConfig.default : OptConfig :=
  ⟨5, 1/10, 0, 0, 3/10, 1/100, 1⟩

/-- Symbolic form of the three constraint dictionaries built by
`create_portfolio_constraints` (`Classes/Strategy.py` lines 126–130): the
equality `sum(x) - total_exposure == 0` and the inequalities
`max_weight - x >= 0` and `x - min_weight >= 0`. -/
inductive PConstraint where
  | eqSumExposure (target : ℚ)
  | leMaxWeight (m : ℚ)
  | geMinWeight (m : ℚ)
deriving Repr, DecidableEq

/-- The method `OptimizationStrategy.create_portfolio_constraints`
(`Classes/Strategy.py` lines 118–132). -/
def create_portfolio_constraints (cfg : OptConfig) : List PConstraint :=
  [.eqSumExposure cfg.total_exposure, .leMaxWeight cfg.max_weight, .geMinWeight cfg.min_weight]

/-- Number of positional parameters that `create_portfolio_constraints`
declares beyond `self` (its signature on line 118 is
`def create_portfolio_constraints(self)`). -/
def create_portfolio_constraints_nparams : ℕ := 0

/-- Semantics of a Python bound-method call: passing a number of positional
arguments different from the number of declared parameters raises
`TypeError` before the body runs. -/
def pyBoundCall (nparams nargs : ℕ) (v : α) : Except PyErr α :=
  if nargs = nparams then .ok v else .error .typeError

/-- The value returned by `scipy.optimize.minimize`: convergence flag, the
candidate point, and a message. -/
structure SolverResult where
  success : Bool
  x : List ℚ
  message : String

/-- Abstract numerical solver standing for `scipy.optimize.minimize` with
`method='SLSQP'`: it receives the closed objective, the initial point, the
box bounds and the constraint list. -/
abbrev Solver := (List ℚ → ℚ) → List ℚ → List (ℚ × ℚ) → List PConstraint → SolverResult

/-- An objective function of the optimization family, as a pure function of
(weights, expected returns, covariance matrix). -/
abbrev Objective := List ℚ → List ℚ → List (List ℚ) → ℚ

/-- Column means of a complete frame (`returns.mean()`); on the reachable
path the frame has at least two rows, so the divisor is nonzero. -/
def colMeans (f : Frame) : List ℚ :=
  f.colsVals.map (fun c => (c.filterMap id).sum / ((c.filterMap id).length : ℚ))

/-- Sample covariance of two complete columns with `ddof=1`. -/
def covPair (x y : List ℚ) : ℚ :=
  (((x.zip y).map (fun p =>
      (p.1 - x.sum / (x.length : ℚ)) * (p.2 - y.sum / (y.length : ℚ)))).sum)
    / ((x.length : ℚ) - 1)

/-- The covariance matrix `returns.cov()` of a complete frame. -/
def covMatrix (f : Frame) : List (List ℚ) :=
  (f.colsVals.map (fun c => c.filterMap id)).map (fun x =>
    (f.colsVals.map (fun c => c.filterMap id)).map (fun y => covPair x y))

/-- Pandas `Series.update(other)`: entries of `s` whose label appears in
`other` are overwritten with the value from `other`. -/
def seriesUpdate (s : Series) (other : List (Asset × ℚ)) : Series :=
  s.map (fun p =>
    match other.lookup p.1 with
    | some q => (p.1, some q)
    | none => p)

/-- The method `OptimizationStrategy.get_position` (`Classes/Strategy.py`
lines 56–116), generic over the concrete objective function and with
`scipy.optimize.minimize` abstracted as `solver`.  Fewer than two return
observations, or no surviving asset, returns `current_position` unchanged.
Otherwise line 84 executes `self.create_portfolio_constraints(returns)`,
which passes one positional argument to a method declaring none — Python
raises `TypeError` there, which is modelled by `pyBoundCall`; the covariance
/ solver code below line 84 is translated but unreachable.  On solver failure
the source emits `warnings.warn(...)` (no semantic effect) and returns
`current_position`. -/
def OptimizationStrategy.get_position (cfg : OptConfig) (objective_function : Objective)
    (solver : Solver) (historical_data : Frame) (current_position : Series) :
    Except PyErr Series :=
  let returns := historical_data.pct_change.dropnaRows
  if returns.nrows < 2 then .ok current_position
  else
    let returns2 := returns.dropnaColsAny
    if returns2.isEmptyF then .ok current_position
    else
      match pyBoundCall create_portfolio_constraints_nparams 1
          (create_portfolio_constraints cfg) with
      | .error e => .error e
      | .ok portfolio_constraints =>
        let cov_matrix := covMatrix returns2
        let expected_returns := colMeans returns2
        let bounds := (List.range returns2.cols.length).map (fun _ => ((0 : ℚ), (1 : ℚ)))
        let initial_weights := (List.range returns2.cols.length).map
          (fun _ => 1 / (returns2.cols.length : ℚ))
        let result := solver (fun w => objective_function w expected_returns cov_matrix)
          initial_weights bounds portfolio_constraints
        if result.success then
          .ok (seriesUpdate (historical_data.cols.map (fun a => (a, some (0 : ℚ))))
            (returns2.cols.zip result.x))
        else
          .ok current_position

/-- The rebalancing-date loop of `Backtester.calculate_weights`
(`Classes/Backtester.py` lines 96–100): starting at `current`, collect dates
downward in steps of `freq` while `current >= bound` holds, where
`bound = prices.index[0] + window`.  The source loop does not terminate for
`freq <= 0`; the model guards on `0 < freq` and is only used with positive
frequencies. -/
def scheduleLoop (bound freq current : ℤ) : List ℤ :=
  if 0 < freq ∧ bound ≤ current then
    current :: scheduleLoop bound freq (current - freq)
  else []
termination_by (current + freq - bound).toNat
decreasing_by omega

/-- The full schedule construction of `Backtester.calculate_weights` lines
96–103: the backward loop from the last price date, then `reverse()` to
ascending order.  `first` and `last` are the first and last dates of the
sliced price frame. -/
def rebalancing_dates (first last freq window : ℤ) : List ℤ :=
  (scheduleLoop (first + window) freq last).reverse

/-- The dense weight history `self.weights`: a DataFrame over the union of
the asset labels returned by the strategy, with `fillna(0.0)` applied. -/
structure WeightsDF where
  cols : List Asset
  rows : List (ℤ × List ℚ)
deriving Repr, DecidableEq

/-- Construction of `self.weights` (`Classes/Backtester.py` lines 129–132):
`pd.DataFrame(weights_list, index=dates_list)` over the union of the series
labels in order of first appearance, followed by `fillna(0.0)`, which turns
both absent labels and NaN entries into `0`. -/
def buildWeightsDF (rows : List (ℤ × Series)) : WeightsDF :=
  let cols := (rows.flatMap (fun r => r.2.map Prod.fst)).dedup
  ⟨cols, rows.map (fun r =>
    (r.1, cols.map (fun a =>
      match r.2.lookup a with
      | some (some q) => q
      | _ => 0)))⟩

/-- One iteration of the rebalance loop of `Backtester.calculate_weights`
(lines 108–126): slice the training window `[d - window, d - 1]`, drop
columns with missing values (the `print` on an empty filtered window has no
semantic effect — the strategy is still invoked), call the strategy, carry
its result forward and record it.  A strategy exception propagates. -/
def weightsStep (prices : Frame) (window : ℤ) (strategy : GetPosition)
    (st : Series × List (ℤ × Series)) (current_date : ℤ) :
    Except PyErr (Series × List (ℤ × Series)) :=
  let price_window_filtered :=
    (prices.sliceRows (current_date - window) (current_date - 1)).dropnaColsAny
  match strategy price_window_filtered st.1 with
  | .error e => .error e
  | .ok w => .ok (w, st.2 ++ [(current_date, w)])

/-- The method `Backtester.calculate_weights` (`Classes/Backtester.py` lines
70–132).  `prices.index[-1]` on line 97 raises `IndexError` when the sliced
price frame has no rows.  `last_weights` starts as the zero Series over the
sliced price columns. -/
def Backtester.calculate_weights (data : Frame) (start_date end_date freq window : ℤ)
    (strategy : GetPosition) : Except PyErr WeightsDF :=
  let prices := data.sliceRows (start_date - window) end_date
  match prices.rows.head?, prices.rows.getLast? with
  | some firstRow, some lastRow =>
    let dates := rebalancing_dates firstRow.1 lastRow.1 freq window
    let init : Series := prices.cols.map (fun a => (a, some (0 : ℚ)))
    match dates.foldlM (weightsStep prices window strategy) (init, []) with
    | .error e => .error e
    | .ok st => .ok (buildWeightsDF st.2)
  | _, _ => .error .indexError

/-- Pandas `DataFrame.first_valid_index()` on `self.weights`: the first row
holding any valid entry.  All entries are dense after `fillna(0.0)`, so a row
is valid exactly when it has at least one column; an empty weight history
yields `None`. -/
def WeightsDF.first_valid_index (W : WeightsDF) : Option ℤ :=
  (W.rows.find? (fun r => !r.2.isEmpty)).map Prod.fst

/-- The pandas product-and-sum `(current_weights * returns.loc[date]).sum()`:
the two Series are aligned by label, unmatched labels and NaN returns give
NaN products, and `.sum()` skips NaN. -/
def dotAligned (wcols : List Asset) (w : List ℚ) (rcols : List Asset) (r : List PVal) : ℚ :=
  ((wcols.zip w).map (fun p =>
    match (rcols.zip r).lookup p.1 with
    | some (some rv) => p.2 * rv
    | _ => 0)).sum

/-- Lines 176–179 of `Classes/Backtester.py`: per-asset position changes
`(new_weights - previous_weights) * balance` and the event's transaction
cost `changes.abs().sum() * (transaction_cost / 100)`. -/
def transactionCostsOf (new_w prev_w : List ℚ) (balance tc : ℚ) : ℚ :=
  (((new_w.zip prev_w).map (fun p => (p.1 - p.2) * balance)).map (fun c => |c|)).sum
    * (tc / 100)

/-- One date of the simulation loop of `Backtester.calculate_performance`
(lines 170–198).  The state is (balance, total transaction costs, previous
weights over `W.cols`).  On a rebalance date the cost is subtracted and the
new weights adopted before the period's compounding; otherwise the carried
weights are applied unchanged. -/
def perfStep (dfCols : List Asset) (W : WeightsDF) (tc : ℚ)
    (st : ℚ × ℚ × List ℚ) (row : ℤ × List PVal) : ℚ × ℚ × List ℚ :=
  match W.rows.lookup row.1 with
  | some current_weights =>
    let transaction_costs := transactionCostsOf current_weights st.2.2 st.1 tc
    let balance := st.1 - transaction_costs
    (balance * (1 + dotAligned W.cols current_weights dfCols row.2),
      st.2.1 + transaction_costs, current_weights)
  | none =>
    (st.1 * (1 + dotAligned W.cols st.2.2 dfCols row.2), st.2.1, st.2.2)

/-- The state trace of the simulation loop: the scan of `perfStep` over the
simulated return rows, starting from (aum, 0, zero weights). -/
def perfTrace (dfCols : List Asset) (W : WeightsDF) (tc : ℚ)
    (init : ℚ × ℚ × List ℚ) (rows : List (ℤ × List PVal)) : List (ℚ × ℚ × List ℚ) :=
  List.scanl (perfStep dfCols W tc) init rows

/-- The method `Backtester.calculate_performance` (`Classes/Backtester.py`
lines 134–201).  With an empty weight history `first_valid_index()` is
`None`, and line 165 (`first_valid_date - pd.DateOffset(days=1)`) raises
`TypeError` on `None`.  Otherwise: slice `[start, end]`, drop all-NaN
columns, `ffill` then `bfill`, simple returns without the first row, iterate
from the first weight date, and return the performance series together with
the accumulated transaction costs. -/
def Backtester.calculate_performance (data : Frame) (weights : WeightsDF)
    (start_date end_date : ℤ) (aum tc : ℚ) :
    Except PyErr (List (ℤ × ℚ) × ℚ) :=
  match weights.first_valid_index with
  | none => .error .typeError
  | some first_valid_date =>
    let df := ((data.sliceRows start_date end_date).dropnaColsAll).ffill.bfill
    let returns : Frame := ⟨df.cols, df.pct_change.rows.drop 1⟩
    let date_range := returns.rows.filter (fun r => decide (first_valid_date ≤ r.1))
    let init : ℚ × ℚ × List ℚ := (aum, 0, weights.cols.map (fun _ => (0 : ℚ)))
    let states := perfTrace df.cols weights tc init date_range
    .ok (((first_valid_date - 1) :: date_range.map Prod.fst).zip (states.map (fun s => s.1)),
      ((states.getLast?.map (fun s => s.2.1)).getD 0))

/-- Modelled from the spec: the balance update exactly as §4.5 words it — on
a date with a recorded Weight Vector, first subtract
`sum(|new - previous| x balance) x (rate / 100)` from the balance and adopt
the new weights, then compound by `(1 + dot(active weights, returns))`; on
any other date only compound.  Used as the refinement target for the code's
`perfStep`. -/
def specBalanceStep (dfCols : List Asset) (W : WeightsDF) (tc : ℚ)
    (st : ℚ × ℚ × List ℚ) (row : ℤ × List PVal) : ℚ × ℚ × List ℚ :=
  match W.rows.lookup row.1 with
  | some new_weights =>
    let cost := (((new_weights.zip st.2.2).map (fun p => |(p.1 - p.2) * st.1|)).sum) * (tc / 100)
    ((st.1 - cost) * (1 + dotAligned W.cols new_weights dfCols row.2),
      st.2.1 + cost, new_weights)
  | none =>
    (st.1 * (1 + dotAligned W.cols st.2.2 dfCols row.2), st.2.1, st.2.2)

/-- The Result aggregate (`Classes/Result.py`) as far as the engine fills it:
performance series, weight history and total transaction costs. -/
structure RunResult where
  performance : List (ℤ × ℚ)
  weights : WeightsDF
  total_transaction_costs : ℚ
deriving Repr, DecidableEq

/-- The method `Backtester.run` (`Classes/Backtester.py` lines 23–68).
`strategy=None` raises `ValueError` (line 48).  A missing start or end date
falls back to `self.returns` (lines 50–54) — but `__init__` line 21, which
would set `self.returns`, is commented out, so Python raises
`AttributeError` there.  Otherwise the run is `calculate_weights` followed by
`calculate_performance`. -/
def Backtester.run (data : Frame) (start_date end_date : Option ℤ)
    (freq window : ℤ) (aum transaction_cost : ℚ)
    (strategy : Option GetPosition) : Except PyErr RunResult :=
  match strategy with
  | none => .error .valueError
  | some strat =>
    match start_date with
    | none => .error .attributeError
    | some sd =>
      match end_date with
      | none => .error .attributeError
      | some ed =>
        match Backtester.calculate_weights data sd ed freq window strat with
        | .error e => .error e
        | .ok W =>
          match Backtester.calculate_performance data W sd ed aum transaction_cost with
          | .error e => .error e
          | .ok pr => .ok ⟨pr.1, W, pr.2⟩

/-- Transaction-cost accumulator observed at step `k` of the simulation
trace. -/
def costAt (dfCols : List Asset) (W : WeightsDF) (tc : ℚ)
    (init : ℚ × ℚ × List ℚ) (rows : List (ℤ × List PVal)) (k : ℕ) : ℚ :=
  ((perfTrace dfCols W tc init rows).getD k (0, 0, [])).2.1

/-- A one-asset price history of three complete daily prices, giving two
complete return observations. -/
def demoPrices : Frame := ⟨["A"], [(0, [some 100]), (1, [some 110]), (2, [some 121])]⟩

/-- A previous position over the demo asset. -/
def demoPosition : Series := [("A", some 0)]

/-- A two-asset training window in which every asset has a missing price, so
the engine's `dropna(axis=1)` filter drops all columns. -/
def c4window : Frame := ⟨["A", "B"], [(0, [none, some 1]), (1, [some 2, none])]⟩

/-- A nonzero carried-forward position over the two assets of `c4window`. -/
def c4previous : Series := [("A", some 1), ("B", some 0)]

/-- A zero-column two-row frame, the shape a fully filtered training slice
takes. -/
def c4emptyCols : Frame := ⟨[], [(0, []), (1, [])]⟩

/-- A single-asset window of two prices: its value ranking holds exactly one
asset. -/
def c6frame : Frame := ⟨["A"], [(0, [some 1]), (1, [some 2])]⟩

/-- A previous position for the single-asset ranking window. -/
def c6previous : Series := [("A", some (1/2))]

/-- Price history realizing the spec's known return series
`[0.1, -0.05, 0.02]` from 100. -/
def c7data : Frame :=
  ⟨["A"], [(0, [some 100]), (1, [some 110]), (2, [some (209/2)]), (3, [some (10659/100)])]⟩

/-- A weight history putting full weight on the single asset at date 1. -/
def c7weights : WeightsDF := ⟨["A"], [(1, [1])]⟩

/-- One simulated return row on a date absent from the weight history. -/
def c9rows : List (ℤ × List PVal) := [(5, [some (1/10)])]

/-- Membership in the backward schedule loop: exactly the dates reached from
`current` in steps of `freq` that still satisfy the window bound. -/
lemma scheduleLoop_mem (bound freq : ℤ) (hf : 0 < freq) :
    ∀ c d, d ∈ scheduleLoop bound freq c ↔ ∃ i : ℕ, d = c - i * freq ∧ bound ≤ d := by
  have H : ∀ n : ℕ, ∀ c : ℤ, (c + freq - bound).toNat = n →
      ∀ d, d ∈ scheduleLoop bound freq c ↔ ∃ i : ℕ, d = c - i * freq ∧ bound ≤ d := by
    intro n
    induction n using Nat.strong_induction_on with
    | _ n ih =>
      intro c hc d
      rw [scheduleLoop]
      by_cases hbc : bound ≤ c
      · rw [if_pos ⟨hf, hbc⟩]
        have hrec := ih (c - freq + freq - bound).toNat (by omega) (c - freq) rfl d
        simp only [List.mem_cons, hrec]
        constructor
        · rintro (rfl | ⟨i, rfl, hbd⟩)
          · exact ⟨0, by push_cast; ring_nf, hbc⟩
          · exact ⟨i + 1, by push_cast; ring_nf, hbd⟩
        · rintro ⟨i, rfl, hbd⟩
          cases i with
          | zero => left; push_cast; ring_nf
          | succ j => right; exact ⟨j, by push_cast; ring_nf, hbd⟩
      · rw [if_neg (by tauto)]
        simp only [List.not_mem_nil, false_iff]
        rintro ⟨i, rfl, hbd⟩
        have : (i : ℤ) * freq ≥ 0 := by positivity
        omega
  intro c
  exact H _ c rfl

/-- Head of a nonvacuous schedule loop. -/
lemma scheduleLoop_head (bound freq c : ℤ) (h : 0 < freq ∧ bound ≤ c) :
    (scheduleLoop bound freq c).head? = some c := by
  rw [scheduleLoop, if_pos h]; rfl

/-- Consecutive dates of the backward loop differ by exactly `freq`. -/
lemma scheduleLoop_chain (bound freq : ℤ) (hf : 0 < freq) :
    ∀ c, List.Chain' (fun a b => a = b + freq) (scheduleLoop bound freq c) := by
  have H : ∀ n : ℕ, ∀ c : ℤ, (c + freq - bound).toNat = n →
      List.Chain' (fun a b => a = b + freq) (scheduleLoop bound freq c) := by
    intro n
    induction n using Nat.strong_induction_on with
    | _ n ih =>
      intro c hc
      rw [scheduleLoop]
      by_cases hbc : bound ≤ c
      · rw [if_pos ⟨hf, hbc⟩]
        refine List.chain'_cons'.mpr ⟨?_, ih (c - freq + freq - bound).toNat (by omega) _ rfl⟩
        intro y hy
        by_cases hb2 : bound ≤ c - freq
        · rw [scheduleLoop_head bound freq (c - freq) ⟨hf, hb2⟩] at hy
          simp only [Option.mem_def, Option.some.injEq] at hy
          omega
        · rw [scheduleLoop, if_neg (by tauto)] at hy
          simp at hy
      · rw [if_neg (by tauto)]
        exact List.chain'_nil
  intro c
  exact H _ c rfl

/-- Row count is unchanged by dropping columns. -/
lemma dropnaColsAny_nrows (f : Frame) : f.dropnaColsAny.nrows = f.nrows := by
  simp [Frame.dropnaColsAny, Frame.nrows]

/-- Column labels survive `pct_change` unchanged. -/
lemma pct_change_cols (f : Frame) : f.pct_change.cols = f.cols := rfl

/-- Column labels survive row dropping unchanged. -/
lemma dropnaRows_cols (f : Frame) : f.dropnaRows.cols = f.cols := rfl

/-- A frame without columns keeps no columns after the column filter. -/
lemma dropnaColsAny_cols_nil (f : Frame) (h : f.cols = []) : f.dropnaColsAny.cols = [] := by
  simp [Frame.dropnaColsAny, h]

/-- The first element of a scan is its initial state. -/
lemma scanl_getD_zero {α β : Type} (f : β → α → β) (l : List α) (i : β) (d : β) :
    (List.scanl f i l).getD 0 d = i := by
  cases l <;> simp [List.scanl]

/-- Unfolding one step of a scan at index `k + 1`: the state is the step
function applied to the state at `k` and the `k`-th input. -/
lemma scanl_getD_succ {α β : Type} (f : β → α → β) :
    ∀ (l : List α) (i : β) (k : ℕ), k < l.length → ∀ (d : β) (da : α),
      (List.scanl f i l).getD (k + 1) d = f ((List.scanl f i l).getD k d) (l.getD k da) := by
  intro l
  induction l with
  | nil => intro i k hk; simp at hk
  | cons x xs ih =>
    intro i k hk d da
    cases k with
    | zero =>
      simp only [List.scanl, List.getD_cons_succ, List.getD_cons_zero]
      exact scanl_getD_zero f xs (f i x) d
    | succ j =>
      simp only [List.scanl, List.getD_cons_succ]
      exact ih (f i x) j (by simpa using hk) d da

/-- A rebalance event never decreases the transaction-cost accumulator. -/
lemma perfStep_cost_le (dfCols : List Asset) (W : WeightsDF) (tc : ℚ)
    (htc : 0 ≤ tc) (st : ℚ × ℚ × List ℚ) (row : ℤ × List PVal) :
    st.2.1 ≤ (perfStep dfCols W tc st row).2.1 := by
  unfold perfStep
  cases hl : W.rows.lookup row.1 with
  | none => simp
  | some cw =>
    simp only
    have h0 : 0 ≤ transactionCostsOf cw st.2.2 st.1 tc := by
      unfold transactionCostsOf
      apply mul_nonneg
      · apply List.sum_nonneg
        intro x hx
        obtain ⟨c, _, rfl⟩ := List.mem_map.mp hx
        exact abs_nonneg c
      · positivity
    linarith

/-- A date outside the weight history leaves the accumulator unchanged. -/
lemma perfStep_cost_eq (dfCols : List Asset) (W : WeightsDF) (tc : ℚ)
    (st : ℚ × ℚ × List ℚ) (row : ℤ × List PVal) (h : W.rows.lookup row.1 = none) :
    (perfStep dfCols W tc st row).2.1 = st.2.1 := by
  unfold perfStep
  rw [h]

/-- An in-bounds `getD` is a member of the list. -/
lemma getD_mem_aux {α : Type} (l : List α) (n : ℕ) (d : α) (h : n < l.length) :
    l.getD n d ∈ l := by
  rw [List.getD_eq_get?, List.get?_eq_get h]
  simp

/-- Second components of a zip against `some`-tagged values filter back to
the original value list. -/
lemma filterMap_snd_zip_some (labels : List Asset) :
    ∀ scores : List ℚ, labels.length = scores.length →
      (labels.zip (scores.map some)).filterMap (fun p => p.2) = scores := by
  induction labels with
  | nil =>
    intro scores h
    cases scores with
    | nil => rfl
    | cons q qs => simp at h
  | cons a t ih =>
    intro scores h
    cases scores with
    | nil => simp at h
    | cons q qs => simpa using ih qs (by simpa using h)

/-- Reattaching ranks to an all-`some` series pairs the labels with the ranks
in order. -/
lemma assignRanks_all_some (labels : List Asset) :
    ∀ (scores ranks : List ℚ), labels.length = scores.length →
      ranks.length = scores.length →
      assignRanks (labels.zip (scores.map some)) ranks = labels.zip (ranks.map some) := by
  induction labels with
  | nil => intro scores ranks h hr; rfl
  | cons a t ih =>
    intro scores ranks h hr
    cases scores with
    | nil => simp at h
    | cons q qs =>
      cases ranks with
      | nil => simp at hr
      | cons r rs =>
        simp only [List.map_cons, List.zip_cons_cons, assignRanks, List.cons.injEq, true_and]
        exact ih qs rs (by simpa using h) (by simpa using hr)

/-- Ranking assigns one rank per value. -/
lemma rankFirst_length (asc : Bool) (v : List ℚ) : (rankFirst asc v).length = v.length := by
  simp [rankFirst]

/-- Strict counting: a filter grows strictly when the predicate strictly
widens at a member of the list. -/
lemma length_filter_lt_length_filter {α : Type} (l : List α) (p q : α → Bool)
    (hmono : ∀ y ∈ l, p y = true → q y = true) (x : α) (hx : x ∈ l)
    (hqx : q x = true) (hpx : p x = false) :
    (l.filter p).length < (l.filter q).length := by
  induction l with
  | nil => cases hx
  | cons a t ih =>
    rcases List.mem_cons.mp hx with rfl | hxt
    · have hle : (t.filter p).length ≤ (t.filter q).length := by
        rw [← List.countP_eq_length_filter, ← List.countP_eq_length_filter]
        exact List.countP_mono_left (fun y hy hpy => hmono y (List.mem_cons_of_mem _ hy) hpy)
      simp only [List.filter_cons, hpx, hqx]
      simpa using Nat.lt_succ_of_le hle
    · have hlt2 := ih (fun y hy hpy => hmono y (List.mem_cons_of_mem _ hy) hpy) hxt
      rw [List.filter_cons, List.filter_cons]
      by_cases hpa : p a = true
      · have hqa := hmono a (List.mem_cons_self a t) hpa
        rw [if_pos hpa, if_pos hqa]
        simpa using hlt2
      · rw [if_neg hpa]
        by_cases hqa : q a = true
        · rw [if_pos hqa]
          simp only [List.length_cons]
          omega
        · rw [if_neg hqa]
          exact hlt2

/-- No entry of an enumeration starting at `n` has an index below `m ≤ n`. -/
lemma enumFrom_filter_lt_nil (m : ℕ) (c : ℚ) :
    ∀ (n : ℕ) (xs : List ℚ), m ≤ n →
      (List.enumFrom n xs).filter (fun q => decide (q.1 < m) && decide (q.2 = c)) = [] := by
  intro n xs
  induction xs generalizing n with
  | nil => intro h; simp
  | cons x t ih =>
    intro h
    simp only [List.enumFrom, List.filter_cons]
    have : decide (n < m) = false := by simp; omega
    rw [this]
    simpa using ih (n + 1) (by omega)

/-- The ranking comparison is irreflexive. -/
lemma rankLtb_irrefl (asc : Bool) (a : ℚ) : rankLtb asc a a = false := by
  cases asc <;> simp [rankLtb]

/-- The ranking comparison separates its arguments. -/
lemma rankLtb_ne (asc : Bool) (a b : ℚ) (h : rankLtb asc a b = true) : a ≠ b := by
  cases asc <;> simp [rankLtb] at h <;> exact fun hc => absurd h (by simp [hc])

/-- The ranking comparison is transitive in its value argument. -/
lemma rankLtb_trans (asc : Bool) (a b c : ℚ) (h1 : rankLtb asc a b = true)
    (h2 : rankLtb asc b c = true) : rankLtb asc a c = true := by
  cases asc <;> simp [rankLtb] at * <;> linarith

/-- Either order holds under the ranking comparison once the values differ. -/
lemma rankLtb_total (asc : Bool) (a b : ℚ) (h : a < b) :
    rankLtb asc a b = true ∨ rankLtb asc b a = true := by
  cases asc
  · right
    simpa [rankLtb] using h
  · left
    simpa [rankLtb] using h

/-- With tie-break `method='first'`, the first two ranks of a list of at
least two values are always different. -/
lemma rankFirst_head_ne (asc : Bool) (x0 x1 : ℚ) (rest : List ℚ) :
    (rankFirst asc (x0 :: x1 :: rest)).getD 0 0 ≠ (rankFirst asc (x0 :: x1 :: rest)).getD 1 0 := by
  have hE0 : ((x0 :: x1 :: rest).enum.filter
      (fun q => decide (q.1 < 0) && decide (q.2 = x0))).length = 0 := by
    rw [show (x0 :: x1 :: rest).enum = List.enumFrom 0 (x0 :: x1 :: rest) from rfl]
    rw [enumFrom_filter_lt_nil 0 x0 0 (x0 :: x1 :: rest) (by omega)]
    rfl
  have hE1 : ((x0 :: x1 :: rest).enum.filter
      (fun q => decide (q.1 < 1) && decide (q.2 = x1))).length
      = if x0 = x1 then 1 else 0 := by
    rw [show (x0 :: x1 :: rest).enum = (0, x0) :: List.enumFrom 1 (x1 :: rest) from rfl]
    rw [List.filter_cons]
    rw [enumFrom_filter_lt_nil 1 x1 1 (x1 :: rest) (by omega)]
    by_cases h01 : x0 = x1 <;> simp [h01]
  have hget : (rankFirst asc (x0 :: x1 :: rest)).getD 0 0
        = 1 + (((x0 :: x1 :: rest).filter (fun y => rankLtb asc y x0)).length : ℚ)
          + (((x0 :: x1 :: rest).enum.filter
              (fun q => decide (q.1 < 0) && decide (q.2 = x0))).length : ℚ)
      ∧ (rankFirst asc (x0 :: x1 :: rest)).getD 1 0
        = 1 + (((x0 :: x1 :: rest).filter (fun y => rankLtb asc y x1)).length : ℚ)
          + (((x0 :: x1 :: rest).enum.filter
              (fun q => decide (q.1 < 1) && decide (q.2 = x1))).length : ℚ) := by
    constructor <;> rfl
  rw [hget.1, hget.2, hE0, hE1]
  rcases lt_trichotomy x0 x1 with hlt | heq | hgt
  · have hne : x0 ≠ x1 := ne_of_lt hlt
    rcases rankLtb_total asc x0 x1 hlt with hl | hl
    · have hstrict := length_filter_lt_length_filter (x0 :: x1 :: rest)
        (fun y => rankLtb asc y x0) (fun y => rankLtb asc y x1)
        (fun y _ hy => rankLtb_trans asc y x0 x1 hy hl) x0 (List.mem_cons_self _ _)
        hl (rankLtb_irrefl asc x0)
      simp only [if_neg hne]
      intro hcontra
      have : (((x0 :: x1 :: rest).filter (fun y => rankLtb asc y x0)).length : ℚ)
          = ((x0 :: x1 :: rest).filter (fun y => rankLtb asc y x1)).length := by linarith
      exact absurd (Nat.cast_injective this) (Nat.ne_of_lt hstrict)
    · have hstrict := length_filter_lt_length_filter (x0 :: x1 :: rest)
        (fun y => rankLtb asc y x1) (fun y => rankLtb asc y x0)
        (fun y _ hy => rankLtb_trans asc y x1 x0 hy hl) x1
        (List.mem_cons_of_mem _ (List.mem_cons_self _ _)) hl (rankLtb_irrefl asc x1)
      simp only [if_neg hne]
      intro hcontra
      have : (((x0 :: x1 :: rest).filter (fun y => rankLtb asc y x1)).length : ℚ)
          = ((x0 :: x1 :: rest).filter (fun y => rankLtb asc y x0)).length := by linarith
      exact absurd (Nat.cast_injective this) (Nat.ne_of_lt hstrict)
  · subst heq
    simp only [if_pos rfl]
    intro hcontra
    norm_num at hcontra
  · have hne : x0 ≠ x1 := (ne_of_lt hgt).symm
    rcases (rankLtb_total asc x1 x0 hgt).symm with hl | hl
    · have hstrict := length_filter_lt_length_filter (x0 :: x1 :: rest)
        (fun y => rankLtb asc y x0) (fun y => rankLtb asc y x1)
        (fun y _ hy => rankLtb_trans asc y x0 x1 hy hl) x0 (List.mem_cons_self _ _)
        hl (rankLtb_irrefl asc x0)
      simp only [if_neg hne]
      intro hcontra
      have : (((x0 :: x1 :: rest).filter (fun y => rankLtb asc y x0)).length : ℚ)
          = ((x0 :: x1 :: rest).filter (fun y => rankLtb asc y x1)).length := by linarith
      exact absurd (Nat.cast_injective this) (Nat.ne_of_lt hstrict)
    · have hstrict := length_filter_lt_length_filter (x0 :: x1 :: rest)
        (fun y => rankLtb asc y x1) (fun y => rankLtb asc y x0)
        (fun y _ hy => rankLtb_trans asc y x1 x0 hy hl) x1
        (List.mem_cons_of_mem _ (List.mem_cons_self _ _)) hl (rankLtb_irrefl asc x1)
      simp only [if_neg hne]
      intro hcontra
      have : (((x0 :: x1 :: rest).filter (fun y => rankLtb asc y x1)).length : ℚ)
          = ((x0 :: x1 :: rest).filter (fun y => rankLtb asc y x0)).length := by linarith
      exact absurd (Nat.cast_injective this) (Nat.ne_of_lt hstrict)

/-- Summing a list shifted by a constant. -/
lemma sum_map_sub_const (l : List ℚ) (c : ℚ) :
    (l.map (fun x => x - c)).sum = l.sum - l.length * c := by
  induction l with
  | nil => simp
  | cons x t ih => simp [ih]; ring

/-- A list of nonnegative terms with one positive member has positive sum. -/
lemma sum_pos_of_nonneg_mem (l : List ℚ) (h : ∀ x ∈ l, 0 ≤ x) (x : ℚ)
    (hx : x ∈ l) (hp : 0 < x) : 0 < l.sum := by
  induction l with
  | nil => cases hx
  | cons a t ih =>
    rcases List.mem_cons.mp hx with rfl | hxt
    · have : 0 ≤ t.sum := List.sum_nonneg (fun y hy => h y (List.mem_cons_of_mem _ hy))
      simp only [List.sum_cons]
      linarith
    · have ha := h a (List.mem_cons_self a t)
      have := ih (fun y hy => h y (List.mem_cons_of_mem _ hy)) hxt
      simp only [List.sum_cons]
      linarith

/-- Summing a list divided by a constant. -/
lemma sum_map_div_const (l : List ℚ) (c : ℚ) :
    (l.map (fun x => x / c)).sum = l.sum / c := by
  induction l with
  | nil => simp
  | cons x t ih => simp [ih]; ring

/-- The Python built-in sum of finite floats is the exact sum. -/
lemma pvalSum_map_some (l : List ℚ) : pvalSum (l.map some) = some l.sum := by
  induction l with
  | nil => rfl
  | cons x t ih => simp [pvalSum, ih]

/-- Mapping a function over second components of a zip of equal-length lists. -/
lemma map_pair_zip (g : PVal → PVal) (names : List Asset) :
    ∀ l : List PVal, names.length = l.length →
      (names.zip l).map (fun p => (p.1, g p.2)) = names.zip (l.map g) := by
  induction names with
  | nil => intro l h; rfl
  | cons a t ih =>
    intro l h
    cases l with
    | nil => simp at h
    | cons x xs => simpa using ih xs (by simpa using h)

/-- Collapsing a zip to a function of its second components. -/
lemma map_snd_fn_zip {γ : Type} (g : PVal → γ) (names : List Asset) :
    ∀ l : List PVal, names.length = l.length →
      (names.zip l).map (fun p => g p.2) = l.map g := by
  induction names with
  | nil =>
    intro l h
    cases l with
    | nil => rfl
    | cons x xs => simp at h
  | cons a t ih =>
    intro l h
    cases l with
    | nil => simp at h
    | cons x xs => simpa using ih xs (by simpa using h)

/-- Subtracting the (finite) average from an all-finite labelled ranking. -/
lemma map_psubP_zip (c : ℚ) (names : List Asset) :
    ∀ rs : List ℚ, names.length = rs.length →
      (names.zip (rs.map some)).map (fun p => (p.1, psubP p.2 (some c)))
        = names.zip (rs.map (fun r => some (r - c))) := by
  induction names with
  | nil => intro rs h; rfl
  | cons a t ih =>
    intro rs h
    cases rs with
    | nil => simp at h
    | cons q qs => simpa [psubP] using ih qs (by simpa using h)

/-- Taking absolute values of the finite deviation Series. -/
lemma map_absOpt_zip (c : ℚ) (names : List Asset) :
    ∀ rs : List ℚ, names.length = rs.length →
      (names.zip (rs.map (fun r => some (r - c)))).map (fun p => Option.map (fun w => |w|) p.2)
        = rs.map (fun r => some |r - c|) := by
  induction names with
  | nil =>
    intro rs h
    cases rs with
    | nil => rfl
    | cons q qs => simp at h
  | cons a t ih =>
    intro rs h
    cases rs with
    | nil => simp at h
    | cons q qs => simpa using ih qs (by simpa using h)

/-- The built-in sum of the finite absolute deviations. -/
lemma pvalSum_abs_some (c : ℚ) (rs : List ℚ) :
    pvalSum (rs.map (fun r => some |r - c|)) = some ((rs.map (fun r => |r - c|)).sum) := by
  induction rs with
  | nil => rfl
  | cons q qs ih => simp [pvalSum, ih]

/-- Dividing the finite deviation Series by a nonzero finite total. -/
lemma map_pdivP_zip (c T : ℚ) (hT : T ≠ 0) (names : List Asset) :
    ∀ rs : List ℚ, names.length = rs.length →
      (names.zip (rs.map (fun r => some (r - c)))).map (fun p => (p.1, pdivP p.2 (some T)))
        = names.zip (rs.map (fun r => some ((r - c) / T))) := by
  induction names with
  | nil => intro rs h; rfl
  | cons a t ih =>
    intro rs h
    cases rs with
    | nil => simp at h
    | cons q qs => simpa [pdivP, if_neg hT] using ih qs (by simpa using h)

/-- The generic rank-to-weight transform on an all-finite ranking of labelled
assets: with `avg` the mean rank and the sum `T` of absolute deviations
nonzero, every weight comes out finite and equal to `(rank - avg) / T`. -/
lemma rankTransform_eq (names : List Asset) (rs : List ℚ)
    (h : names.length = rs.length) (h0 : rs ≠ [])
    (hT : (rs.map (fun r => |r - rs.sum / rs.length|)).sum ≠ 0) :
    rankTransform (names.zip (rs.map some)) =
      names.zip (rs.map (fun r => some ((r - rs.sum / rs.length)
        / (rs.map (fun x => |x - rs.sum / rs.length|)).sum))) := by
  simp only [rankTransform]
  rw [filterMap_snd_zip_some names rs h]
  have hnum : rs.length ≠ 0 := fun hc => h0 (List.eq_nil_of_length_eq_zero hc)
  rw [if_neg hnum]
  rw [map_psubP_zip (rs.sum / (rs.length : ℚ)) names rs h]
  rw [map_absOpt_zip (rs.sum / (rs.length : ℚ)) names rs h]
  rw [pvalSum_abs_some (rs.sum / (rs.length : ℚ)) rs]
  rw [map_pdivP_zip (rs.sum / (rs.length : ℚ))
    ((rs.map (fun x => |x - rs.sum / (rs.length : ℚ)|)).sum) hT names rs h]

/-- An association list with no NaN entry is the zip of its labels with its
values. -/
lemma eq_zip_of_all_some : ∀ s : List (Asset × PVal), (∀ p ∈ s, p.2.isSome = true) →
    s = (s.map Prod.fst).zip ((s.filterMap (fun p => p.2)).map some) := by
  intro s
  induction s with
  | nil => intro h; rfl
  | cons p t ih =>
    intro h
    obtain ⟨a, v⟩ := p
    cases v with
    | none => exact absurd (h (a, none) (List.mem_cons_self _ _)) (by simp)
    | some q =>
      have ht := ih (fun x hx => h x (List.mem_cons_of_mem _ hx))
      simpa using ht

/-- Filtering the values of a NaN-free association list keeps its length. -/
lemma filterMap_snd_length_all_some : ∀ s : List (Asset × PVal),
    (∀ p ∈ s, p.2.isSome = true) → (s.filterMap (fun p => p.2)).length = s.length := by
  intro s
  induction s with
  | nil => intro h; rfl
  | cons p t ih =>
    intro h
    obtain ⟨a, v⟩ := p
    cases v with
    | none => exact absurd (h (a, none) (List.mem_cons_self _ _)) (by simp)
    | some q => simpa using ih (fun x hx => h x (List.mem_cons_of_mem _ hx))

/-- Ranking an all-finite labelled Series pairs the labels with the
`method='first'` ranks of the values. -/
lemma rankSeries_all_some (asc : Bool) (labels : List Asset) (scores : List ℚ)
    (h : labels.length = scores.length) :
    rankSeries asc (labels.zip (scores.map some))
      = labels.zip ((rankFirst asc scores).map some) := by
  unfold rankSeries
  rw [filterMap_snd_zip_some labels scores h]
  exact assignRanks_all_some labels scores (rankFirst asc scores) h (rankFirst_length asc scores)

/-- Absolute values of a mapped finite Series. -/
lemma map_absOpt_zip_g (g : ℚ → ℚ) (names : List Asset) :
    ∀ rs : List ℚ, names.length = rs.length →
      (names.zip (rs.map (fun r => some (g r)))).map (fun p => Option.map (fun w => |w|) p.2)
        = rs.map (fun r => some |g r|) := by
  induction names with
  | nil =>
    intro rs h
    cases rs with
    | nil => rfl
    | cons q qs => simp at h
  | cons a t ih =>
    intro rs h
    cases rs with
    | nil => simp at h
    | cons q qs => simpa using ih qs (by simpa using h)

/-- Built-in sum of a mapped finite Series. -/
lemma pvalSum_some_map (g : ℚ → ℚ) (rs : List ℚ) :
    pvalSum (rs.map (fun r => some (g r))) = some ((rs.map g).sum) := by
  induction rs with
  | nil => rfl
  | cons q qs ih => simp [pvalSum, ih]

/-- Absolute values of quotients by a positive constant. -/
lemma sum_map_absdiv (vals : List ℚ) (avg T : ℚ) (hT : 0 < T) :
    (vals.map (fun r => |(r - avg) / T|)).sum = (vals.map (fun r => |r - avg|)).sum / T := by
  induction vals with
  | nil => simp
  | cons x xs ih =>
    simp only [List.map_cons, List.sum_cons, ih]
    rw [abs_div, abs_of_pos hT]
    ring

set_option maxHeartbeats 1000000 in
/-- Core properties of the generic rank-to-weight transform on a NaN-free
ranking Series whose value multiset contains two different ranks: the
absolute-deviation total `T` is positive, every returned weight is the finite
`(rank - avg) / T`, the pre-normalization weights sum to zero, and the
absolute returned weights sum to exactly one. -/
lemma rank_weights_properties (s : List (Asset × PVal)) (R : List ℚ)
    (hall : ∀ p ∈ s, p.2.isSome = true)
    (hperm : (s.filterMap (fun p => p.2)).Perm R)
    (r0 r1 : ℚ) (hr0 : r0 ∈ R) (hr1 : r1 ∈ R) (hne01 : r0 ≠ r1) :
    0 < ((s.filterMap (fun p => p.2)).map
        (fun x => |x - (s.filterMap (fun p => p.2)).sum
          / ((s.filterMap (fun p => p.2)).length : ℚ)|)).sum
    ∧ rankTransform s = (s.map Prod.fst).zip
        ((s.filterMap (fun p => p.2)).map (fun r =>
          some ((r - (s.filterMap (fun p => p.2)).sum
              / ((s.filterMap (fun p => p.2)).length : ℚ))
            / ((s.filterMap (fun p => p.2)).map
                (fun x => |x - (s.filterMap (fun p => p.2)).sum
                  / ((s.filterMap (fun p => p.2)).length : ℚ)|)).sum)))
    ∧ ((s.filterMap (fun p => p.2)).map (fun r =>
        r - (s.filterMap (fun p => p.2)).sum
          / ((s.filterMap (fun p => p.2)).length : ℚ))).sum = 0
    ∧ pvalSum ((rankTransform s).map (fun p => p.2.map (fun w => |w|))) = some 1 := by
  have hvR : ∀ x, x ∈ s.filterMap (fun p => p.2) ↔ x ∈ R := fun x => hperm.mem_iff
  have hsum : (s.filterMap (fun p => p.2)).sum = R.sum := hperm.sum_eq
  have hlenR : (s.filterMap (fun p => p.2)).length = R.length := hperm.length_eq
  have hRne : R ≠ [] := fun hc => by subst hc; cases hr0
  have hvne : s.filterMap (fun p => p.2) ≠ [] := by
    intro hc
    exact hRne (List.eq_nil_of_length_eq_zero (by rw [← hlenR, hc]; rfl))
  have hlenQ : ((s.filterMap (fun p => p.2)).length : ℚ) ≠ 0 := by
    have := List.length_pos.mpr hvne
    exact_mod_cast Nat.pos_iff_ne_zero.mp this
  -- some rank differs from the average
  have hx : ∃ x ∈ s.filterMap (fun p => p.2),
      x ≠ (s.filterMap (fun p => p.2)).sum / ((s.filterMap (fun p => p.2)).length : ℚ) := by
    by_cases h0 : r0 = (s.filterMap (fun p => p.2)).sum
        / ((s.filterMap (fun p => p.2)).length : ℚ)
    · exact ⟨r1, (hvR r1).mpr hr1, fun hc => hne01 (h0 ▸ hc ▸ rfl)⟩
    · exact ⟨r0, (hvR r0).mpr hr0, h0⟩
  obtain ⟨x, hxmem, hxne⟩ := hx
  have hTpos : 0 < ((s.filterMap (fun p => p.2)).map
      (fun y => |y - (s.filterMap (fun p => p.2)).sum
        / ((s.filterMap (fun p => p.2)).length : ℚ)|)).sum := by
    refine sum_pos_of_nonneg_mem _ ?_ (|x - (s.filterMap (fun p => p.2)).sum
      / ((s.filterMap (fun p => p.2)).length : ℚ)|)
      (List.mem_map_of_mem _ hxmem) (abs_pos.mpr (sub_ne_zero.mpr hxne))
    intro y hy
    obtain ⟨z, _, rfl⟩ := List.mem_map.mp hy
    exact abs_nonneg _
  have hTne : ((s.filterMap (fun p => p.2)).map
      (fun y => |y - (s.filterMap (fun p => p.2)).sum
        / ((s.filterMap (fun p => p.2)).length : ℚ)|)).sum ≠ 0 := ne_of_gt hTpos
  have hzip := eq_zip_of_all_some s hall
  have hlen' : (s.map Prod.fst).length = (s.filterMap (fun p => p.2)).length := by
    rw [List.length_map, filterMap_snd_length_all_some s hall]
  have htrans : rankTransform s = (s.map Prod.fst).zip
      ((s.filterMap (fun p => p.2)).map (fun r =>
        some ((r - (s.filterMap (fun p => p.2)).sum
            / ((s.filterMap (fun p => p.2)).length : ℚ))
          / ((s.filterMap (fun p => p.2)).map
              (fun y => |y - (s.filterMap (fun p => p.2)).sum
                / ((s.filterMap (fun p => p.2)).length : ℚ)|)).sum))) := by
    conv_lhs => rw [hzip]
    exact rankTransform_eq _ _ hlen' hvne hTne
  refine ⟨hTpos, htrans, ?_, ?_⟩
  · rw [sum_map_sub_const]
    field_simp
  · rw [htrans]
    rw [map_absOpt_zip_g (fun r =>
        (r - (s.filterMap (fun p => p.2)).sum / ((s.filterMap (fun p => p.2)).length : ℚ))
          / ((s.filterMap (fun p => p.2)).map
              (fun y => |y - (s.filterMap (fun p => p.2)).sum
                / ((s.filterMap (fun p => p.2)).length : ℚ)|)).sum)
      _ _ hlen']
    rw [pvalSum_some_map]
    rw [sum_map_absdiv _ _ _ hTpos]
    rw [div_self hTne]

/-- C10: for every rank-based strategy (Value, Momentum, Minimum Volatility),
the Weight Vector returned by `get_position` depends only on the training
prices — two calls with identical training data and any two previous-position
vectors return identical weights; the previous position is never read on the
rank path. -/
theorem c10_rank_ignores_previous_position (historical_data : Frame) (p q : Series) :
    ValueStrategy.get_position historical_data p = ValueStrategy.get_position historical_data q
    ∧ MomentumStrategy.get_position historical_data p
        = MomentumStrategy.get_position historical_data q
    ∧ MinVolStrategy.get_position historical_data p
        = MinVolStrategy.get_position historical_data q :=
  ⟨rfl, rfl, rfl⟩

/-- C1 (code bug): the claim promises that converged optimization runs return
weights meeting the sum and box constraints, but no call ever reaches the
solver.  On a window of three complete prices — two return observations, one
surviving asset, so both data guards pass — `get_position` evaluates to
`TypeError` for every objective and every solver, because line 84 calls
`create_portfolio_constraints(returns)` while the method declares no
parameter beyond `self`. -/
theorem c1_solver_path_unreachable (cfg : OptConfig)
    (objective : Objective) (solver : Solver) :
    OptimizationStrategy.get_position cfg objective solver demoPrices demoPosition
      = .error .typeError := rfl

/-- C2 (code bug): whenever the training window yields at least two return
observations and at least one fully populated asset — exactly the case the
claim reserves for a successful or solver-warned allocation — the call raises
`TypeError` at the `create_portfolio_constraints(returns)` call instead of
returning a weight vector or the previous position. -/
theorem c2_sufficient_data_raises (cfg : OptConfig) (objective : Objective) (solver : Solver)
    (historical_data : Frame) (current_position : Series)
    (hrows : 2 ≤ historical_data.pct_change.dropnaRows.nrows)
    (hcols : historical_data.pct_change.dropnaRows.dropnaColsAny.cols ≠ []) :
    OptimizationStrategy.get_position cfg objective solver historical_data current_position
      = .error .typeError := by
  have hrne : historical_data.pct_change.dropnaRows.dropnaColsAny.rows ≠ [] := by
    intro hc
    have hn := dropnaColsAny_nrows historical_data.pct_change.dropnaRows
    rw [Frame.nrows, hc] at hn
    rw [← hn] at hrows
    simp at hrows
  have hEmpty : historical_data.pct_change.dropnaRows.dropnaColsAny.isEmptyF = false := by
    simp only [Frame.isEmptyF, Bool.or_eq_false_iff]
    constructor
    · simpa using hrne
    · simpa using hcols
  simp only [OptimizationStrategy.get_position]
  rw [if_neg (by omega : ¬ historical_data.pct_change.dropnaRows.nrows < 2)]
  rw [hEmpty]
  simp [pyBoundCall, create_portfolio_constraints_nparams]

/-- Witness for C2 at a concrete window: three complete prices of one asset
pass both guards, and the call raises `TypeError`. -/
theorem c2_sufficient_data_raises_witness :
    OptimizationStrategy.get_position OptConfig.default
      (fun _ _ _ => 0) (fun _ x _ _ => ⟨true, x, ""⟩) demoPrices demoPosition
      = .error .typeError :=
  c2_sufficient_data_raises OptConfig.default (fun _ _ _ => 0)
    (fun _ x _ _ => ⟨true, x, ""⟩) demoPrices demoPosition (by decide) (by decide)

/-- C4 counterexample: on a training slice whose every asset has a missing
price — so the engine's `dropna(axis=1)` leaves zero columns — the value-rank
strategy does not return the previous Weight Vector: it returns an empty
Series (recorded as zeros after `fillna`), and the equal-weight variant even
raises `ZeroDivisionError` from `1 / num_assets`. -/
theorem c4_counterexample :
    RankedStrategy.get_position ValueStrategy.rank_assets c4window.dropnaColsAny c4previous
        = Except.ok ([] : Series)
    ∧ RankedStrategy.get_position ValueStrategy.rank_assets c4window.dropnaColsAny c4previous
        ≠ Except.ok c4previous
    ∧ EqualWeightStrategy.get_position c4window.dropnaColsAny c4previous
        = .error .zeroDivisionError := by
  refine ⟨rfl, ?_, rfl⟩
  have h1 : RankedStrategy.get_position ValueStrategy.rank_assets
      c4window.dropnaColsAny c4previous = Except.ok ([] : Series) := rfl
  rw [h1]
  simp [c4previous]

/-- C4 amended: on a rebalance date whose filtered training slice has zero
columns, the optimization strategies do not raise and return the previous
Weight Vector unchanged — rank variants instead return an empty vector and
EqualWeight raises, see the counterexample. -/
theorem c4_amended_optimization_zero_columns (cfg : OptConfig) (objective : Objective)
    (solver : Solver) (f : Frame) (current_position : Series) (hc : f.cols = []) :
    OptimizationStrategy.get_position cfg objective solver f current_position
      = .ok current_position := by
  simp only [OptimizationStrategy.get_position]
  by_cases hr : f.pct_change.dropnaRows.nrows < 2
  · rw [if_pos hr]
  · rw [if_neg hr]
    have hcc : f.pct_change.dropnaRows.dropnaColsAny.cols = [] := by
      apply dropnaColsAny_cols_nil
      rw [dropnaRows_cols, pct_change_cols]
      exact hc
    have hE : f.pct_change.dropnaRows.dropnaColsAny.isEmptyF = true := by
      simp [Frame.isEmptyF, hcc]
    rw [hE, if_pos rfl]

/-- Witness for the amended C4 at a concrete zero-column two-row slice. -/
theorem c4_amended_optimization_zero_columns_witness :
    OptimizationStrategy.get_position OptConfig.default (fun _ _ _ => 0)
      (fun _ x _ _ => ⟨true, x, ""⟩) c4emptyCols c4previous = .ok c4previous :=
  c4_amended_optimization_zero_columns OptConfig.default (fun _ _ _ => 0)
    (fun _ x _ _ => ⟨true, x, ""⟩) c4emptyCols c4previous rfl

/-- C5 (code bug): `run` with only a strategy supplied does not complete —
because `Backtester.__init__` line 21 (the assignment of `self.returns`) is
commented out, the `start_date is None` default path raises
`AttributeError`; the no-strategy half of the claim does hold: `run` without
a strategy fails fast with `ValueError` before the simulation starts. -/
theorem c5_run_defaults_broken :
    Backtester.run demoPrices none none 30 365 100 0 (some EqualWeightStrategy.get_position)
        = .error .attributeError
    ∧ Backtester.run demoPrices none none 30 365 100 0 none = .error .valueError :=
  ⟨rfl, rfl⟩

/-- C3 (code bug): when no rebalance date satisfies the window constraint,
the run does not complete with an empty history and flat performance — it
raises.  With an empty schedule the weight history has no rows, so
`first_valid_index()` is `None` and line 165 of `Classes/Backtester.py`
(`first_valid_date - pd.DateOffset(days=1)`) raises `TypeError`. -/
theorem c3_empty_schedule_run_raises (data : Frame) (sd ed freq window : ℤ)
    (aum tc : ℚ) (strategy : GetPosition) (fr lr : ℤ × List PVal)
    (hh : (data.sliceRows (sd - window) ed).rows.head? = some fr)
    (hl : (data.sliceRows (sd - window) ed).rows.getLast? = some lr)
    (hd : rebalancing_dates fr.1 lr.1 freq window = []) :
    Backtester.run data (some sd) (some ed) freq window aum tc (some strategy)
      = .error .typeError := by
  simp only [Backtester.run, Backtester.calculate_weights, hh, hl, hd]
  simp [List.foldlM, buildWeightsDF, Backtester.calculate_performance,
    WeightsDF.first_valid_index, pure, Except.pure]

/-- Witness for C3: a three-day price history with the default 365-day window
admits no rebalance date, and the run raises `TypeError`. -/
theorem c3_empty_schedule_run_raises_witness :
    Backtester.run demoPrices (some 0) (some 2) 30 365 100 0
      (some EqualWeightStrategy.get_position) = .error .typeError :=
  c3_empty_schedule_run_raises demoPrices 0 2 30 365 100 0 EqualWeightStrategy.get_position
    (0, [some 100]) (2, [some 121]) (by decide) (by decide)
    (by rw [rebalancing_dates, scheduleLoop]; norm_num)

/-- C8: the schedule is built backward from the last sliced price date in
steps of `freq`, keeping exactly the candidates whose training window fits
(`first + window ≤ d`), then reversed — so it is ascending, strictly periodic
with step `freq`, and every scheduled date has a full training window of
history before it. -/
theorem c8_schedule_contract (first last freq window : ℤ) (hf : 0 < freq) :
    (∀ d, d ∈ rebalancing_dates first last freq window ↔
        ∃ i : ℕ, d = last - i * freq ∧ first + window ≤ d)
    ∧ List.Pairwise (· < ·) (rebalancing_dates first last freq window)
    ∧ List.Chain' (fun a b => b = a + freq) (rebalancing_dates first last freq window)
    ∧ ∀ d ∈ rebalancing_dates first last freq window, first ≤ d - window := by
  have hmem := scheduleLoop_mem (first + window) freq hf last
  have hchain := scheduleLoop_chain (first + window) freq hf last
  have hchain2 : List.Chain' (fun a b => b = a + freq)
      (rebalancing_dates first last freq window) := by
    rw [rebalancing_dates, List.chain'_reverse]
    exact hchain
  refine ⟨?_, ?_, hchain2, ?_⟩
  · intro d
    rw [rebalancing_dates, List.mem_reverse]
    exact hmem d
  · have h2 : List.Chain' (· < ·) (rebalancing_dates first last freq window) :=
      List.Chain'.imp (fun a b hab => by omega) hchain2
    exact List.chain'_iff_pairwise.mp h2
  · intro d hd
    rw [rebalancing_dates, List.mem_reverse] at hd
    obtain ⟨i, rfl, hbd⟩ := (hmem d).mp hd
    linarith

/-- Witness for C8 with the default 30-day interval and 365-day window over a
400-day price slice. -/
theorem c8_schedule_contract_witness :
    (∀ d, d ∈ rebalancing_dates 0 400 30 365 ↔
        ∃ i : ℕ, d = 400 - i * 30 ∧ 0 + 365 ≤ d)
    ∧ List.Pairwise (· < ·) (rebalancing_dates 0 400 30 365)
    ∧ List.Chain' (fun a b => b = a + 30) (rebalancing_dates 0 400 30 365)
    ∧ ∀ d ∈ rebalancing_dates 0 400 30 365, 0 ≤ d - 365 :=
  c8_schedule_contract 0 400 30 365 (by norm_num)

/-- C9: with a non-negative transaction-cost rate the accumulator is
non-decreasing at every simulated step, and on a date absent from the Weight
History it stays exactly unchanged. -/
theorem c9_cost_accumulator (dfCols : List Asset) (W : WeightsDF) (tc : ℚ)
    (init : ℚ × ℚ × List ℚ) (rows : List (ℤ × List PVal)) (htc : 0 ≤ tc)
    (k : ℕ) (hk : k < rows.length) :
    costAt dfCols W tc init rows k ≤ costAt dfCols W tc init rows (k + 1)
    ∧ (W.rows.lookup (rows.getD k (0, [])).1 = none →
        costAt dfCols W tc init rows (k + 1) = costAt dfCols W tc init rows k) := by
  have hstep : (perfTrace dfCols W tc init rows).getD (k + 1) (0, 0, [])
      = perfStep dfCols W tc ((perfTrace dfCols W tc init rows).getD k (0, 0, []))
          (rows.getD k (0, [])) :=
    scanl_getD_succ (perfStep dfCols W tc) rows init k hk (0, 0, []) (0, [])
  constructor
  · simp only [costAt]
    rw [hstep]
    exact perfStep_cost_le dfCols W tc htc _ _
  · intro hnone
    simp only [costAt]
    rw [hstep]
    exact perfStep_cost_eq dfCols W tc _ _ hnone

/-- Witness for C9 at one simulated date outside the weight history. -/
theorem c9_cost_accumulator_witness :
    costAt ["A"] c7weights 1 (100, 0, [0]) c9rows 0
        ≤ costAt ["A"] c7weights 1 (100, 0, [0]) c9rows 1
    ∧ (c7weights.rows.lookup ((c9rows.getD 0 (0, [])).1) = none →
        costAt ["A"] c7weights 1 (100, 0, [0]) c9rows 1
          = costAt ["A"] c7weights 1 (100, 0, [0]) c9rows 0) :=
  c9_cost_accumulator ["A"] c7weights 1 (100, 0, [0]) c9rows (by norm_num) 0 (by decide)

set_option maxHeartbeats 4000000 in
/-- C7: the per-date balance update refines the spec's wording — on a
rebalance date subtract `sum(|(new - prev) x balance|) x (rate/100)` and
adopt the new weights, then compound by `(1 + dot(weights, returns))`; with a
single asset at weight 1, zero cost and returns `[0.1, -0.05, 0.02]` from
AUM 100 the balance series is `100, 110, 104.5, 106.59`; and in the
two-asset equal-weight scenario at 1% cost the event cost is `1.0`, leaving
`99.0` before that period's compounding. -/
theorem c7_balance_update_and_compounding :
    (∀ (dfCols : List Asset) (W : WeightsDF) (tc : ℚ) (st : ℚ × ℚ × List ℚ)
        (row : ℤ × List PVal),
      perfStep dfCols W tc st row = specBalanceStep dfCols W tc st row)
    ∧ Backtester.calculate_performance c7data c7weights 0 3 100 0
        = .ok ([(0, 100), (1, 110), (2, 209/2), (3, 10659/100)], 0)
    ∧ transactionCostsOf [1/2, 1/2] [0, 0] 100 1 = 1
    ∧ (100 : ℚ) - transactionCostsOf [1/2, 1/2] [0, 0] 100 1 = 99 := by
  refine ⟨?_, ?_, ?_, ?_⟩
  · intro dfCols W tc st row
    unfold perfStep specBalanceStep transactionCostsOf
    cases h : W.rows.lookup row.1 with
    | none => rfl
    | some current_weights =>
      simp only [List.map_map]
      rfl
  · have e1 : (((1 : ℤ) == 1) = true) := by decide
    have e2 : (((2 : ℤ) == 1) = false) := by decide
    have e3 : (((3 : ℤ) == 1) = false) := by decide
    have e4 : ((("A" : String) == "A") = true) := by decide
    norm_num [Backtester.calculate_performance, c7data, c7weights,
      WeightsDF.first_valid_index, Frame.sliceRows, Frame.dropnaColsAll, Frame.ffill,
      Frame.bfill, Frame.mapCols, Frame.colsVals, Frame.colVals, Frame.pct_change,
      pctCol, pctVal, padVal, ffillCol, perfTrace, perfStep, transactionCostsOf,
      dotAligned, List.scanl, List.lookup, List.filter, List.enum, List.enumFrom,
      e1, e2, e3, e4]
  · norm_num [transactionCostsOf]
  · norm_num [transactionCostsOf]

/-- C6 counterexample: on a single-asset training slice the value-rank
weight is NaN, not `(rank - mean)/sum-of-absolute-deviations` — the sole
deviation is zero, so the normalization divides `0.0` by `0` — and the sum
of absolute returned weights is NaN rather than 1. -/
theorem c6_counterexample :
    RankedStrategy.get_position ValueStrategy.rank_assets c6frame c6previous
        = Except.ok [("A", (none : Option ℚ))]
    ∧ pvalSum ([("A", (none : Option ℚ))].map (fun p => p.2.map (fun w => |w|)))
        ≠ some 1 := by
  constructor
  · norm_num [RankedStrategy.get_position, ValueStrategy.rank_assets, c6frame, c6previous,
      Frame.ilocRow, Frame.nrows, rankSeries, rankFirst, rankLtb, assignRanks, sortValues,
      List.insertionSort, List.orderedInsert, pvalLtB, rankTransform, pvalSum, pdivP,
      psubP, List.enum, List.enumFrom, List.filterMap, Except.map, Option.map]
  · simp [pvalSum]

/-- C6 amended: for every rank-based call whose training slice yields at
least two ranked assets, the returned Weight Vector is exactly
`(rank - mean rank) / T` with `T` the (positive) sum of absolute deviations,
the pre-normalization weights sum to zero, and the absolute returned weights
sum to exactly one; the single-asset case instead returns NaN (see the
counterexample). -/
theorem c6_rank_weight_normalization (asc : Bool) (labels : List Asset) (scores : List ℚ)
    (hlen : labels.length = scores.length) (h2 : 2 ≤ scores.length) :
    ∃ avg T : ℚ,
      avg = ((sortValues (rankSeries asc (labels.zip (scores.map some)))).filterMap
          (fun p => p.2)).sum
        / (((sortValues (rankSeries asc (labels.zip (scores.map some)))).filterMap
          (fun p => p.2)).length : ℚ)
      ∧ T = (((sortValues (rankSeries asc (labels.zip (scores.map some)))).filterMap
          (fun p => p.2)).map (fun r => |r - avg|)).sum
      ∧ 0 < T
      ∧ rankTransform (sortValues (rankSeries asc (labels.zip (scores.map some))))
          = ((sortValues (rankSeries asc (labels.zip (scores.map some)))).map Prod.fst).zip
            (((sortValues (rankSeries asc (labels.zip (scores.map some)))).filterMap
                (fun p => p.2)).map (fun r => some ((r - avg) / T)))
      ∧ (((sortValues (rankSeries asc (labels.zip (scores.map some)))).filterMap
            (fun p => p.2)).map (fun r => r - avg)).sum = 0
      ∧ pvalSum ((rankTransform (sortValues (rankSeries asc
            (labels.zip (scores.map some))))).map (fun p => p.2.map (fun w => |w|)))
          = some 1 := by
  have hseq := rankSeries_all_some asc labels scores hlen
  have hlabR : labels.length = (rankFirst asc scores).length := by
    rw [rankFirst_length]
    exact hlen
  have hperm0 : (sortValues (rankSeries asc (labels.zip (scores.map some)))).Perm
      (rankSeries asc (labels.zip (scores.map some))) :=
    List.perm_insertionSort _ _
  have hall : ∀ p ∈ sortValues (rankSeries asc (labels.zip (scores.map some))),
      p.2.isSome = true := by
    intro p hp
    have hp2 : p ∈ labels.zip ((rankFirst asc scores).map some) := by
      rw [← hseq]
      exact hperm0.mem_iff.mp hp
    obtain ⟨a, v⟩ := p
    have hv := (List.of_mem_zip hp2).2
    obtain ⟨q, -, rfl⟩ := List.mem_map.mp hv
    rfl
  have hfm : (rankSeries asc (labels.zip (scores.map some))).filterMap (fun p => p.2)
      = rankFirst asc scores := by
    rw [hseq]
    exact filterMap_snd_zip_some labels (rankFirst asc scores) hlabR
  have hperm : ((sortValues (rankSeries asc (labels.zip (scores.map some)))).filterMap
      (fun p => p.2)).Perm (rankFirst asc scores) := by
    have h1 := hperm0.filterMap (fun p : Asset × PVal => p.2)
    rw [hfm] at h1
    exact h1
  have hRlen : (rankFirst asc scores).length = scores.length := rankFirst_length asc scores
  have hr0 : (rankFirst asc scores).getD 0 0 ∈ rankFirst asc scores :=
    getD_mem_aux _ 0 0 (by omega)
  have hr1 : (rankFirst asc scores).getD 1 0 ∈ rankFirst asc scores :=
    getD_mem_aux _ 1 0 (by omega)
  have hne01 : (rankFirst asc scores).getD 0 0 ≠ (rankFirst asc scores).getD 1 0 := by
    obtain ⟨x0, x1, rest, hsc⟩ : ∃ x0 x1 rest, scores = x0 :: x1 :: rest := by
      cases scores with
      | nil => simp at h2
      | cons a t =>
        cases t with
        | nil => simp at h2
        | cons b u => exact ⟨a, b, u, rfl⟩
    rw [hsc]
    exact rankFirst_head_ne asc x0 x1 rest
  obtain ⟨hTpos, htrans, hzero, hone⟩ :=
    rank_weights_properties (sortValues (rankSeries asc (labels.zip (scores.map some))))
      (rankFirst asc scores) hall hperm _ _ hr0 hr1 hne01
  exact ⟨_, _, rfl, rfl, hTpos, htrans, hzero, hone⟩

/-- Witness for the amended C6 at two assets with scores 3 and 1. -/
theorem c6_rank_weight_normalization_witness :
    ∃ avg T : ℚ,
      avg = ((sortValues (rankSeries true (["A", "B"].zip ([3, 1].map some)))).filterMap
          (fun p => p.2)).sum
        / (((sortValues (rankSeries true (["A", "B"].zip ([3, 1].map some)))).filterMap
          (fun p => p.2)).length : ℚ)
      ∧ T = (((sortValues (rankSeries true (["A", "B"].zip ([3, 1].map some)))).filterMap
          (fun p => p.2)).map (fun r => |r - avg|)).sum
      ∧ 0 < T
      ∧ rankTransform (sortValues (rankSeries true (["A", "B"].zip ([3, 1].map some))))
          = ((sortValues (rankSeries true (["A", "B"].zip ([3, 1].map some)))).map Prod.fst).zip
            (((sortValues (rankSeries true (["A", "B"].zip ([3, 1].map some)))).filterMap
                (fun p => p.2)).map (fun r => some ((r - avg) / T)))
      ∧ (((sortValues (rankSeries true (["A", "B"].zip ([3, 1].map some)))).filterMap
            (fun p => p.2)).map (fun r => r - avg)).sum = 0
      ∧ pvalSum ((rankTransform (sortValues (rankSeries true
            (["A", "B"].zip ([3, 1].map some))))).map (fun p => p.2.map (fun w => |w|)))
          = some 1 :=
  c6_rank_weight_normalization true ["A", "B"] [3, 1] (by decide) (by decide)
